import Mathlib

/-!
Verification of the DRTP (UDP + Go-Back-N) file-transfer program in
`application.py` against its natural-language design document.

The Python source is shallowly embedded as executable Lean definitions:
byte strings are lists of naturals (each element a byte value), Python
`struct` fields are naturals or integers with explicit range checks,
fallible operations return `Option`, and the blocking send/receive loops
are folded over explicit lists of inbound frames or socket events.
-/

namespace DRTP

/-- Flag constants from application.py lines 23-26. -/
def FLAG_FIN : Nat := 0x1

/-- SYN flag, application.py line 24. -/
def FLAG_SYN : Nat := 0x2

/-- RST flag, application.py line 25 (unused by the program). -/
def FLAG_RST : Nat := 0x4

/-- ACK flag, application.py line 26. -/
def FLAG_ACK : Nat := 0x8

/-- Header size in bytes: `struct.calcsize('!HHHH')`, application.py line 17. -/
def HEADER_SIZE : Nat := 8

/-- Maximum payload bytes per packet, application.py line 18. -/
def DATA_CHUNK : Nat := 992

/-- Default advertised receiver window, application.py line 20. -/
def DEFAULT_RECEIVER_WINDOW : Nat := 25

/-- One `'!H'` field of Python `struct.pack`: two big-endian bytes.
Python ints are unbounded, and `struct.pack` raises `struct.error`
(modelled as `none`) whenever the value lies outside [0, 65535];
it never wraps modulo 65536. -/
def struct_pack_u16 (v : Int) : Option (List Nat) :=
  if 0 ≤ v ∧ v < 65536 then some [v.toNat / 256, v.toNat % 256] else none

/-- `pack_header` (application.py lines 39-40): `struct.pack('!HHHH', seq, ack,
flags, window)`. Fields are validated left to right; the first out-of-range
field raises `struct.error` (`none`). -/
def pack_header (seq ack flags window : Int) : Option (List Nat) :=
  (struct_pack_u16 seq).bind fun a =>
  (struct_pack_u16 ack).bind fun b =>
  (struct_pack_u16 flags).bind fun c =>
  (struct_pack_u16 window).bind fun d => some (a ++ b ++ c ++ d)

/-- One `'!H'` field of `struct.unpack`: the value of two big-endian bytes. -/
def struct_unpack_u16 (hi lo : Nat) : Nat := 256 * hi + lo

/-- `unpack_header` (application.py lines 48-49):
`struct.unpack('!HHHH', data[:HEADER_SIZE])`. Raises `struct.error` (`none`)
when fewer than 8 bytes are supplied; bytes beyond the header are ignored. -/
def unpack_header (data : List Nat) : Option (Nat × Nat × Nat × Nat) :=
  match data with
  | b0 :: b1 :: b2 :: b3 :: b4 :: b5 :: b6 :: b7 :: _ =>
      some (struct_unpack_u16 b0 b1, struct_unpack_u16 b2 b3,
            struct_unpack_u16 b4 b5, struct_unpack_u16 b6 b7)
  | _ => none

/-- Frame construction as performed by the client (application.py lines
227-228): `pack_header(...) + chunk`. There is no validation of the payload
length anywhere in the source; a failure can only come from `pack_header`. -/
def encodeFrame (seq ack flags window : Int) (payload : List Nat) :
    Option (List Nat) :=
  (pack_header seq ack flags window).bind fun h => some (h ++ payload)

/-- File chunking as performed by the client (application.py lines 225-229):
`iter(lambda: f_in.read(DATA_CHUNK), b'')` yields successive reads of at most
`DATA_CHUNK` bytes and stops at the first empty read. -/
def read_chunks (data : List Nat) : List (List Nat) :=
  if h : data = [] then []
  else data.take DATA_CHUNK :: read_chunks (data.drop DATA_CHUNK)
termination_by data.length
decreasing_by
  simp only [List.length_drop, DATA_CHUNK]
  have h1 : 0 < data.length := List.length_pos.mpr h
  omega

/-- Every chunk produced by the client's file-reading loop has at most
`DATA_CHUNK` (992) bytes. -/
theorem read_chunks_le (data : List Nat) :
    ∀ c ∈ read_chunks data, c.length ≤ DATA_CHUNK := by
  rw [read_chunks]
  split
  · simp
  · intro c hc
    rcases List.mem_cons.mp hc with h | h
    · subst h
      simp [List.length_take]
    · exact read_chunks_le (data.drop DATA_CHUNK) c h
termination_by data.length
decreasing_by
  simp only [List.length_drop, DATA_CHUNK]
  have h1 : 0 < data.length := List.length_pos.mpr (by assumption)
  omega

theorem struct_pack_u16_natCast (s : Nat) (hs : s < 65536) :
    struct_pack_u16 (s : Int) = some [s / 256, s % 256] := by
  unfold struct_pack_u16
  split
  · simp
  · exfalso
    rename_i hcond
    exact hcond ⟨Int.natCast_nonneg s, by exact_mod_cast hs⟩

theorem struct_pack_u16_none (v : Int) (hv : v < 0 ∨ 65535 < v) :
    struct_pack_u16 v = none := by
  unfold struct_pack_u16
  split
  · exfalso
    rename_i hcond
    omega
  · rfl

theorem pack_header_natCast (s a f w : Nat)
    (hs : s < 65536) (ha : a < 65536) (hf : f < 65536) (hw : w < 65536) :
    pack_header (s : Int) (a : Int) (f : Int) (w : Int) =
      some [s / 256, s % 256, a / 256, a % 256,
            f / 256, f % 256, w / 256, w % 256] := by
  unfold pack_header
  rw [struct_pack_u16_natCast s hs, struct_pack_u16_natCast a ha,
    struct_pack_u16_natCast f hf, struct_pack_u16_natCast w hw]
  simp

end DRTP

namespace DRTP

/-- C4: for all valid header fields (each in [0, 65535]) and every payload of
at most 992 bytes, decoding the bytes produced by encoding
`(sequence, acknowledgment, flags, window, payload)` reproduces exactly the
same tuple: `unpack_header` recovers the four 16-bit fields and the bytes
beyond the 8-byte header equal the payload (round-trip law). -/
theorem C4_codec_roundtrip (s a f w : Nat) (payload : List Nat)
    (hs : s < 65536) (ha : a < 65536) (hf : f < 65536) (hw : w < 65536)
    (hp : payload.length ≤ DATA_CHUNK) :
    ∃ frame, encodeFrame (s : Int) (a : Int) (f : Int) (w : Int) payload = some frame ∧
      unpack_header frame = some (s, a, f, w) ∧
      frame.drop HEADER_SIZE = payload ∧
      frame.length = HEADER_SIZE + payload.length := by
  have e1 : encodeFrame (s : Int) (a : Int) (f : Int) (w : Int) payload =
      some (s / 256 :: s % 256 :: a / 256 :: a % 256 ::
            f / 256 :: f % 256 :: w / 256 :: w % 256 :: payload) := by
    unfold encodeFrame
    rw [pack_header_natCast s a f w hs ha hf hw]
    simp
  refine ⟨_, e1, ?_, ?_, ?_⟩
  · simp only [unpack_header, struct_unpack_u16]
    refine congrArg some ?_
    refine Prod.ext ?_ (Prod.ext ?_ (Prod.ext ?_ ?_)) <;> simp <;> omega
  · simp [HEADER_SIZE]
  · simp only [HEADER_SIZE, List.length_cons]
    omega

/-- Witness for C4 at concrete input (300, 7, 8, 25) with payload [1, 2, 3]. -/
theorem C4_codec_roundtrip_witness :
    ∃ frame, encodeFrame ((300 : Nat) : Int) ((7 : Nat) : Int) ((8 : Nat) : Int)
        ((25 : Nat) : Int) [1, 2, 3] = some frame ∧
      unpack_header frame = some (300, 7, 8, 25) ∧
      frame.drop HEADER_SIZE = [1, 2, 3] ∧
      frame.length = HEADER_SIZE + ([1, 2, 3] : List Nat).length :=
  C4_codec_roundtrip 300 7 8 25 [1, 2, 3]
    (by decide) (by decide) (by decide) (by decide) (by decide)

/-- C5 counterexample: the claim says encoding a payload longer than 992 bytes
fails with `InvalidPayload`, but the source has no payload-length check at all:
encoding a 993-byte payload succeeds and produces a 1001-byte frame. -/
theorem C5_counterexample :
    (encodeFrame 1 0 0 25 (List.replicate 993 0)).isSome = true ∧
    ((encodeFrame 1 0 0 25 (List.replicate 993 0)).getD []).length = 1001 := by
  have e1 : encodeFrame 1 0 0 25 (List.replicate 993 0) =
      some ([0, 1, 0, 0, 0, 0, 0, 25] ++ List.replicate 993 0) := by
    unfold encodeFrame pack_header struct_pack_u16
    norm_num
    decide
  rw [e1]
  refine ⟨rfl, ?_⟩
  rw [Option.getD_some, List.length_append, List.length_replicate]
  norm_num

/-- C5 amended: the codec performs no payload-length validation — for in-range
header fields, encoding succeeds on every payload, of any length, producing
exactly 8 + len(payload) bytes (so an over-long payload yields an over-long
frame rather than an `InvalidPayload` failure). The client nevertheless never
builds a frame whose total wire size exceeds 1000 bytes, because its
file-reading loop caps every chunk at `DATA_CHUNK` = 992 bytes. -/
theorem C5_no_length_validation (s a f w : Nat)
    (hs : s < 65536) (ha : a < 65536) (hf : f < 65536) (hw : w < 65536) :
    (∀ payload : List Nat, ∃ frame,
        encodeFrame (s : Int) (a : Int) (f : Int) (w : Int) payload = some frame ∧
        frame.length = HEADER_SIZE + payload.length)
  ∧ (∀ data : List Nat, ∀ c ∈ read_chunks data,
        ∀ frame, encodeFrame (s : Int) (a : Int) (f : Int) (w : Int) c = some frame →
          frame.length ≤ 1000) := by
  have pk := pack_header_natCast s a f w hs ha hf hw
  constructor
  · intro payload
    refine ⟨[s / 256, s % 256, a / 256, a % 256,
             f / 256, f % 256, w / 256, w % 256] ++ payload, ?_, ?_⟩
    · unfold encodeFrame
      rw [pk]
      simp
    · simp only [HEADER_SIZE, List.length_append, List.length_cons, List.length_nil]
  · intro data c hc frame hframe
    have hlen : c.length ≤ DATA_CHUNK := read_chunks_le data c hc
    unfold encodeFrame at hframe
    rw [pk] at hframe
    simp only [Option.some_bind', Option.some_inj] at hframe
    subst hframe
    simp only [List.length_append, List.length_cons, List.length_nil]
    simp only [DATA_CHUNK] at hlen
    omega

/-- Witness for C5_no_length_validation at concrete header fields. -/
theorem C5_no_length_validation_witness :
    (∀ payload : List Nat, ∃ frame,
        encodeFrame ((1 : Nat) : Int) ((0 : Nat) : Int) ((0 : Nat) : Int)
          ((25 : Nat) : Int) payload = some frame ∧
        frame.length = HEADER_SIZE + payload.length)
  ∧ (∀ data : List Nat, ∀ c ∈ read_chunks data,
        ∀ frame, encodeFrame ((1 : Nat) : Int) ((0 : Nat) : Int) ((0 : Nat) : Int)
            ((25 : Nat) : Int) c = some frame →
          frame.length ≤ 1000) :=
  C5_no_length_validation 1 0 0 25 (by decide) (by decide) (by decide) (by decide)

/-- Outcome of the server-side handshake reply construction
(application.py lines 104-113): a `RuntimeError` when the first frame lacks
the SYN bit, a `struct.error` crash when building the SYN-ACK fails, or the
SYN-ACK packet that is sent. -/
inductive ServerHandshake where
  | expectedSynError
  | structError
  | synackSent (pkt : List Nat)
deriving DecidableEq

/-- Server side of the handshake, `three_way_handshake_server` lines 104-113:
check the SYN bit of the received header, then build the SYN-ACK
`pack_header(0, seq + 1, FLAG_SYN | FLAG_ACK, DEFAULT_RECEIVER_WINDOW)`.
The argument is the decoded header of the first inbound frame. -/
def three_way_handshake_server_reply (seq flags : Nat) : ServerHandshake :=
  if flags &&& FLAG_SYN = 0 then ServerHandshake.expectedSynError
  else
    match pack_header 0 ((seq : Int) + 1)
        (((FLAG_SYN ||| FLAG_ACK : Nat)) : Int) ((DEFAULT_RECEIVER_WINDOW : Nat) : Int) with
    | none => ServerHandshake.structError
    | some pkt => ServerHandshake.synackSent pkt

/-- C9: `pack_header` is not total — any field value outside [0, 65535] makes
it raise `struct.error` (modelled as `none`) rather than wrap modulo 65536;
in particular the server's handshake reply, which encodes
`ack = client_seq + 1`, fails when the incoming SYN carries sequence number
65535. -/
theorem C9_pack_header_not_total (seq ack flags window : Int)
    (h : seq < 0 ∨ 65535 < seq ∨ ack < 0 ∨ 65535 < ack ∨
         flags < 0 ∨ 65535 < flags ∨ window < 0 ∨ 65535 < window) :
    pack_header seq ack flags window = none ∧
    three_way_handshake_server_reply 65535 FLAG_SYN = ServerHandshake.structError := by
  refine ⟨?_, by decide⟩
  unfold pack_header
  rcases h with h | h | h | h | h | h | h | h
  · rw [struct_pack_u16_none seq (Or.inl h)]
    rfl
  · rw [struct_pack_u16_none seq (Or.inr h)]
    rfl
  · rw [struct_pack_u16_none ack (Or.inl h)]
    simp
  · rw [struct_pack_u16_none ack (Or.inr h)]
    simp
  · rw [struct_pack_u16_none flags (Or.inl h)]
    simp
  · rw [struct_pack_u16_none flags (Or.inr h)]
    simp
  · rw [struct_pack_u16_none window (Or.inl h)]
    simp
  · rw [struct_pack_u16_none window (Or.inr h)]
    simp

/-- Witness for C9 with the acknowledgment field out of range (66000). -/
theorem C9_pack_header_not_total_witness :
    pack_header 0 66000 10 25 = none ∧
    three_way_handshake_server_reply 65535 FLAG_SYN = ServerHandshake.structError :=
  C9_pack_header_not_total 0 66000 10 25 (by decide)

end DRTP

namespace DRTP

/-- An inbound frame as seen by the server's data loop (application.py lines
174-175): the decoded header's sequence and flag fields together with the
payload bytes `data[HEADER_SIZE:]`. -/
structure RecvFrame where
  seq : Nat
  flags : Nat
  payload : List Nat
deriving DecidableEq

/-- Observable actions of the server's data loop, in program order:
`deliver` is `f.write(data[HEADER_SIZE:])` for an in-order packet, `ackSent a`
is `sock.sendto(pack_header(0, a, FLAG_ACK, DEFAULT_RECEIVER_WINDOW), addr)`,
`finAckSent` is `sock.sendto(pack_header(0, 0, FLAG_FIN | FLAG_ACK, 0), addr)`,
`dropped` is the test-only discard, and `outOfOrder` is the silent discard of
a frame whose sequence is not the expected one (no packet is sent). -/
inductive RecvEvent where
  | deliver (seq : Nat) (payload : List Nat)
  | ackSent (ackno : Nat)
  | finAckSent
  | dropped (seq : Nat)
  | outOfOrder (seq : Nat)
deriving DecidableEq

/-- The test-only drop-rule guard (application.py line 184): Python
`args.discard and seq == args.discard`; a `None` (or `0`, falsy) discard
value never matches. -/
def discardMatches (disc : Option Nat) (seq : Nat) : Bool :=
  match disc with
  | some d => d != 0 && seq == d
  | none => false

/-- One iteration of the server's data-receive loop body (application.py lines
173-197) in state `expected` (next in-order sequence) and `disc` (pending
test-only drop rule). Returns the events of the iteration, the new `expected`,
the new drop rule, and whether the loop breaks (FIN received). -/
def server_mode_step (expected : Nat) (disc : Option Nat) (fr : RecvFrame) :
    List RecvEvent × Nat × Option Nat × Bool :=
  if fr.flags &&& FLAG_FIN ≠ 0 then
    ([RecvEvent.finAckSent], expected, disc, true)
  else if discardMatches disc fr.seq then
    ([RecvEvent.dropped fr.seq], expected, none, false)
  else if fr.seq = expected then
    ([RecvEvent.deliver fr.seq fr.payload, RecvEvent.ackSent fr.seq],
     expected + 1, disc, false)
  else
    ([RecvEvent.outOfOrder fr.seq], expected, disc, false)

/-- The server's data-receive loop (application.py lines 173-197) folded over
a list of inbound frames. Returns the event trace, the final `expected`, and
the final drop-rule state; a FIN frame stops the loop, ignoring the remaining
frames. If the list runs out without a FIN, the Python loop would block in
`recvfrom`; the fold returns the state reached so far. -/
def server_mode_loop : List RecvFrame → Nat → Option Nat →
    List RecvEvent × Nat × Option Nat
  | [], expected, disc => ([], expected, disc)
  | fr :: rest, expected, disc =>
    let s := server_mode_step expected disc fr
    if s.2.2.2 then (s.1, s.2.1, s.2.2.1)
    else
      let r := server_mode_loop rest s.2.1 s.2.2.1
      (s.1 ++ r.1, r.2)

/-- Sequence numbers whose payload was written to the output file, in order. -/
def deliveredSeqs (t : List RecvEvent) : List Nat :=
  t.filterMap fun e =>
    match e with
    | RecvEvent.deliver s _ => some s
    | _ => none

/-- Acknowledgment values sent by the server, in order. -/
def ackValues (t : List RecvEvent) : List Nat :=
  t.filterMap fun e =>
    match e with
    | RecvEvent.ackSent a => some a
    | _ => none

theorem server_mode_step_not_fin (e : Nat) (disc : Option Nat) (fr : RecvFrame)
    (hfr : fr.flags &&& FLAG_FIN = 0) :
    (server_mode_step e disc fr).2.2.2 = false := by
  simp only [server_mode_step, hfr]
  norm_num
  split_ifs <;> rfl

/-- With no drop rule armed, the loop delivers (and acknowledges) exactly the
consecutive run of expected sequence numbers, and on non-FIN input the final
`expected` counts the deliveries. -/
theorem server_loop_range : ∀ (frames : List RecvFrame) (e : Nat),
    (∀ fr ∈ frames, fr.flags &&& FLAG_FIN = 0) →
    ∃ k, deliveredSeqs (server_mode_loop frames e none).1 = List.range' e k ∧
      ackValues (server_mode_loop frames e none).1 = List.range' e k ∧
      (server_mode_loop frames e none).2.1 = e + k := by
  intro frames
  induction frames with
  | nil =>
    intro e h
    exact ⟨0, by simp [server_mode_loop, deliveredSeqs, ackValues]⟩
  | cons fr rest ih =>
    intro e h
    have hfr : fr.flags &&& FLAG_FIN = 0 := h fr (List.mem_cons_self fr rest)
    have hrest : ∀ f2 ∈ rest, f2.flags &&& FLAG_FIN = 0 :=
      fun f2 hf2 => h f2 (List.mem_cons_of_mem fr hf2)
    by_cases hseq : fr.seq = e
    · obtain ⟨k, hd, ha, he⟩ := ih (e + 1) hrest
      have hs : server_mode_step e none fr =
          ([RecvEvent.deliver fr.seq fr.payload, RecvEvent.ackSent fr.seq],
           e + 1, none, false) := by
        simp [server_mode_step, discardMatches, hfr, hseq]
      refine ⟨k + 1, ?_, ?_, ?_⟩
      · simp only [server_mode_loop, hs, deliveredSeqs, List.filterMap_append,
          List.filterMap_cons, List.filterMap_nil] at *
        rw [List.range'_succ]
        simpa [hseq] using hd
      · simp only [server_mode_loop, hs, ackValues, List.filterMap_append,
          List.filterMap_cons, List.filterMap_nil] at *
        rw [List.range'_succ]
        simpa [hseq] using ha
      · simp [server_mode_loop, hs]
        omega
    · obtain ⟨k, hd, ha, he⟩ := ih e hrest
      have hs : server_mode_step e none fr =
          ([RecvEvent.outOfOrder fr.seq], e, none, false) := by
        simp [server_mode_step, discardMatches, hfr, hseq]
      refine ⟨k, ?_, ?_, ?_⟩
      · simp only [server_mode_loop, hs, deliveredSeqs, List.filterMap_append,
          List.filterMap_cons, List.filterMap_nil] at *
        simpa using hd
      · simp only [server_mode_loop, hs, ackValues, List.filterMap_append,
          List.filterMap_cons, List.filterMap_nil] at *
        simpa using ha
      · simp [server_mode_loop, hs]
        omega

end DRTP

namespace DRTP

/-- C1: with the test-only drop rule disarmed, a DATA frame (FIN bit clear) is
delivered to the output sink if and only if its sequence equals the current
`expected` counter, in which case an ACK whose acknowledgment value equals
that sequence is sent and `expected` is incremented; every other frame is
discarded with no acknowledgment. Consequently, over any inbound frame list
(arbitrary duplication, reordering, gaps) the delivered sequence numbers are
exactly 1, 2, ..., k for some k — strictly increasing, no gaps, no
duplicates — and the ACKs sent are exactly those same values. -/
theorem C1_receiver_in_order (frames : List RecvFrame)
    (hdata : ∀ fr ∈ frames, fr.flags &&& FLAG_FIN = 0) :
    (∀ e fr, fr.flags &&& FLAG_FIN = 0 → fr.seq = e →
        server_mode_step e none fr =
          ([RecvEvent.deliver fr.seq fr.payload, RecvEvent.ackSent fr.seq],
           e + 1, none, false))
  ∧ (∀ e fr, fr.flags &&& FLAG_FIN = 0 → fr.seq ≠ e →
        server_mode_step e none fr = ([RecvEvent.outOfOrder fr.seq], e, none, false))
  ∧ (∃ k, deliveredSeqs (server_mode_loop frames 1 none).1 = List.range' 1 k ∧
        ackValues (server_mode_loop frames 1 none).1 = List.range' 1 k ∧
        (server_mode_loop frames 1 none).2.1 = 1 + k) := by
  refine ⟨?_, ?_, server_loop_range frames 1 hdata⟩
  · intro e fr hfr hseq
    simp [server_mode_step, discardMatches, hfr, hseq]
  · intro e fr hfr hseq
    simp [server_mode_step, discardMatches, hfr, hseq]

/-- Witness for C1 on the concrete inbound stream seq 1, seq 3, seq 1, seq 2:
the payloads of sequences 1 and 2 are delivered (in that order) and
acknowledged; the future frame 3 and the duplicate 1 are discarded. -/
theorem C1_receiver_in_order_witness :
    (∀ e fr, fr.flags &&& FLAG_FIN = 0 → fr.seq = e →
        server_mode_step e none fr =
          ([RecvEvent.deliver fr.seq fr.payload, RecvEvent.ackSent fr.seq],
           e + 1, none, false))
  ∧ (∀ e fr, fr.flags &&& FLAG_FIN = 0 → fr.seq ≠ e →
        server_mode_step e none fr = ([RecvEvent.outOfOrder fr.seq], e, none, false))
  ∧ (∃ k, deliveredSeqs (server_mode_loop
        [⟨1, 0, [5]⟩, ⟨3, 0, [7]⟩, ⟨1, 0, [5]⟩, ⟨2, 0, [6]⟩] 1 none).1 =
          List.range' 1 k ∧
        ackValues (server_mode_loop
        [⟨1, 0, [5]⟩, ⟨3, 0, [7]⟩, ⟨1, 0, [5]⟩, ⟨2, 0, [6]⟩] 1 none).1 =
          List.range' 1 k ∧
        (server_mode_loop
        [⟨1, 0, [5]⟩, ⟨3, 0, [7]⟩, ⟨1, 0, [5]⟩, ⟨2, 0, [6]⟩] 1 none).2.1 = 1 + k) :=
  C1_receiver_in_order [⟨1, 0, [5]⟩, ⟨3, 0, [7]⟩, ⟨1, 0, [5]⟩, ⟨2, 0, [6]⟩]
    (by decide)

/-- Unfolding of the loop at a FIN frame: everything before the FIN is
processed normally, the FIN itself produces exactly the FIN-ACK reply, and
all later frames are ignored. -/
theorem server_loop_fin : ∀ (pre : List RecvFrame) (post : List RecvFrame)
    (finFr : RecvFrame) (e : Nat) (disc : Option Nat),
    (∀ fr ∈ pre, fr.flags &&& FLAG_FIN = 0) →
    finFr.flags &&& FLAG_FIN ≠ 0 →
    server_mode_loop (pre ++ finFr :: post) e disc =
      ((server_mode_loop pre e disc).1 ++ [RecvEvent.finAckSent],
       (server_mode_loop pre e disc).2.1, (server_mode_loop pre e disc).2.2) := by
  intro pre
  induction pre with
  | nil =>
    intro post finFr e disc hpre hfin
    simp [server_mode_loop, server_mode_step, hfin]
  | cons fr pre2 ih =>
    intro post finFr e disc hpre hfin
    have hfr : fr.flags &&& FLAG_FIN = 0 := hpre fr (List.mem_cons_self fr pre2)
    have hpre2 : ∀ f2 ∈ pre2, f2.flags &&& FLAG_FIN = 0 :=
      fun f2 hf2 => hpre f2 (List.mem_cons_of_mem fr hf2)
    have hnf := server_mode_step_not_fin e disc fr hfr
    simp only [List.cons_append, server_mode_loop, hnf, Bool.false_eq_true,
      if_false, List.append_eq]
    rw [ih post finFr _ _ hpre2 hfin]
    simp [List.append_assoc]

/-- C8: when an inbound frame with the FIN bit set arrives at any point of the
data phase — even mid-window — the receiver immediately replies with a
FIN-ACK frame and stops the loop: the trace is the trace of the frames before
the FIN followed by the FIN-ACK send, the delivered payload sequence is
exactly what was accepted before the FIN, and no frame after the FIN is
processed. -/
theorem C8_fin_stops_loop (pre post : List RecvFrame) (finFr : RecvFrame)
    (e : Nat) (disc : Option Nat)
    (hpre : ∀ fr ∈ pre, fr.flags &&& FLAG_FIN = 0)
    (hfin : finFr.flags &&& FLAG_FIN ≠ 0) :
    (∀ e2 disc2, server_mode_step e2 disc2 finFr =
      ([RecvEvent.finAckSent], e2, disc2, true))
  ∧ server_mode_loop (pre ++ finFr :: post) e disc =
      ((server_mode_loop pre e disc).1 ++ [RecvEvent.finAckSent],
       (server_mode_loop pre e disc).2.1, (server_mode_loop pre e disc).2.2)
  ∧ deliveredSeqs (server_mode_loop (pre ++ finFr :: post) e disc).1 =
      deliveredSeqs (server_mode_loop pre e disc).1 := by
  have hmain := server_loop_fin pre post finFr e disc hpre hfin
  refine ⟨fun e2 disc2 => by simp [server_mode_step, hfin], hmain, ?_⟩
  rw [hmain]
  simp [deliveredSeqs, List.filterMap_append]

/-- Witness for C8: FIN arrives after the first two of three data frames;
only sequences 1 and 2 are delivered, frame 3 is never processed. -/
theorem C8_fin_stops_loop_witness :
    (∀ e2 disc2, server_mode_step e2 disc2 (⟨9, 1, []⟩ : RecvFrame) =
      ([RecvEvent.finAckSent], e2, disc2, true))
  ∧ server_mode_loop ([⟨1, 0, [5]⟩, ⟨2, 0, [6]⟩] ++ ⟨9, 1, []⟩ :: [⟨3, 0, [7]⟩]) 1 none =
      ((server_mode_loop [⟨1, 0, [5]⟩, ⟨2, 0, [6]⟩] 1 none).1 ++ [RecvEvent.finAckSent],
       (server_mode_loop [⟨1, 0, [5]⟩, ⟨2, 0, [6]⟩] 1 none).2.1,
       (server_mode_loop [⟨1, 0, [5]⟩, ⟨2, 0, [6]⟩] 1 none).2.2)
  ∧ deliveredSeqs (server_mode_loop
        ([⟨1, 0, [5]⟩, ⟨2, 0, [6]⟩] ++ ⟨9, 1, []⟩ :: [⟨3, 0, [7]⟩]) 1 none).1 =
      deliveredSeqs (server_mode_loop [⟨1, 0, [5]⟩, ⟨2, 0, [6]⟩] 1 none).1 := by
  have h3 : (⟨9, 1, []⟩ : RecvFrame).flags &&& FLAG_FIN ≠ 0 := by decide
  exact C8_fin_stops_loop [⟨1, 0, [5]⟩, ⟨2, 0, [6]⟩] [⟨3, 0, [7]⟩] ⟨9, 1, []⟩ 1 none
    (by decide) h3

end DRTP

namespace DRTP

/-- C10: the receiver writes an accepted frame's payload to the output sink
before sending the corresponding ACK (application.py line 190 `f.write`
precedes line 194 `sock.sendto`), so at every point of the receive-loop
trace, every acknowledged sequence number has already had its payload
delivered: any `ackSent a` event at position `i` is preceded by a
`deliver a _` event at some position `j < i`. -/
theorem C10_delivered_before_acked :
    ∀ (frames : List RecvFrame) (e : Nat) (disc : Option Nat) (i a : Nat),
      ((server_mode_loop frames e disc).1)[i]? = some (RecvEvent.ackSent a) →
      ∃ j pl, j < i ∧
        ((server_mode_loop frames e disc).1)[j]? =
          some (RecvEvent.deliver a pl) := by
  intro frames
  induction frames with
  | nil =>
    intro e disc i a h
    simp [server_mode_loop] at h
  | cons fr rest ih =>
    intro e disc i a h
    by_cases h1 : fr.flags &&& FLAG_FIN ≠ 0
    · have hs : server_mode_loop (fr :: rest) e disc = ([RecvEvent.finAckSent], e, disc) := by
        simp [server_mode_loop, server_mode_step, h1]
      rw [hs] at h
      cases i with
      | zero => simp at h
      | succ i2 => simp at h
    · have h1e : fr.flags &&& FLAG_FIN = 0 := by omega
      by_cases h2 : discardMatches disc fr.seq
      · have hs : server_mode_loop (fr :: rest) e disc =
            (RecvEvent.dropped fr.seq :: (server_mode_loop rest e none).1,
             (server_mode_loop rest e none).2) := by
          simp [server_mode_loop, server_mode_step, h1e, h2]
        rw [hs] at h ⊢
        cases i with
        | zero => simp at h
        | succ i2 =>
          rw [List.getElem?_cons_succ] at h
          obtain ⟨j, pl, hj, hjel⟩ := ih e none i2 a h
          exact ⟨j + 1, pl, by omega, by rw [List.getElem?_cons_succ]; exact hjel⟩
      · by_cases h3 : fr.seq = e
        · rw [h3] at h2
          have hs : server_mode_loop (fr :: rest) e disc =
              (RecvEvent.deliver fr.seq fr.payload :: RecvEvent.ackSent fr.seq ::
                 (server_mode_loop rest (e + 1) disc).1,
               (server_mode_loop rest (e + 1) disc).2) := by
            simp [server_mode_loop, server_mode_step, h1e, h2, h3]
          rw [hs] at h ⊢
          cases i with
          | zero => simp at h
          | succ i2 =>
            cases i2 with
            | zero =>
              rw [List.getElem?_cons_succ, List.getElem?_cons_zero] at h
              have ha : fr.seq = a := by
                have := Option.some_inj.mp h
                cases this
                rfl
              exact ⟨0, fr.payload, by omega,
                by rw [List.getElem?_cons_zero, ha]⟩
            | succ i3 =>
              rw [List.getElem?_cons_succ, List.getElem?_cons_succ] at h
              obtain ⟨j, pl, hj, hjel⟩ := ih (e + 1) disc i3 a h
              exact ⟨j + 2, pl, by omega,
                by rw [List.getElem?_cons_succ, List.getElem?_cons_succ]; exact hjel⟩
        · have hs : server_mode_loop (fr :: rest) e disc =
              (RecvEvent.outOfOrder fr.seq :: (server_mode_loop rest e disc).1,
               (server_mode_loop rest e disc).2) := by
            simp [server_mode_loop, server_mode_step, h1e, h2, h3]
          rw [hs] at h ⊢
          cases i with
          | zero => simp at h
          | succ i2 =>
            rw [List.getElem?_cons_succ] at h
            obtain ⟨j, pl, hj, hjel⟩ := ih e disc i2 a h
            exact ⟨j + 1, pl, by omega, by rw [List.getElem?_cons_succ]; exact hjel⟩

/-- Witness for C10: in the trace of the single in-order frame 1, the ACK at
position 1 is preceded by the delivery of sequence 1 at position 0. -/
theorem C10_delivered_before_acked_witness :
    ∃ j pl, j < 1 ∧
      ((server_mode_loop [⟨1, 0, [7]⟩] 1 none).1)[j]? =
        some (RecvEvent.deliver 1 pl) :=
  C10_delivered_before_acked [⟨1, 0, [7]⟩] 1 none 1 1 (by decide)

end DRTP

namespace DRTP

/-- Sender state of the Go-Back-N loop (application.py lines 232-233):
`base` is the lowest unacknowledged sequence number, `next` the lowest
not-yet-sent one (both start at 1). -/
structure SenderState where
  base : Nat
  next : Nat
deriving DecidableEq

/-- One event observed by the sender's wait (application.py lines 244-254):
either an inbound frame whose decoded header carries acknowledgment value
`ackn` and `flags`, or a socket receive timeout. -/
inductive SenderEvent where
  | ack (ackn : Nat) (flags : Nat)
  | timeout
deriving DecidableEq

/-- The inner fill-window while loop (application.py lines 238-242):
`while next_seq < base + window_size and next_seq <= total`, transmitting
packet `next_seq` and incrementing it. `fuel` bounds the iterations; below it
is instantiated with `stop - next`, which is exact — the guard is already
false whenever the fuel alone would stop the recursion — so the fuelled
recursion computes precisely the while loop. -/
def fillWindowGo (total stop : Nat) : Nat → Nat → List Nat × Nat
  | 0, next => ([], next)
  | fuel + 1, next =>
    if next < stop ∧ next ≤ total then
      let r := fillWindowGo total stop fuel (next + 1)
      (next :: r.1, r.2)
    else ([], next)

/-- Fill the window from state (`base`, `next`): returns the transmitted
sequence numbers in send order and the new `next_seq`. -/
def fillWindow (W total base next : Nat) : List Nat × Nat :=
  fillWindowGo total (base + W) (base + W - next) next

/-- Handling of one awaited event (application.py lines 244-254): an inbound
frame with the ACK bit set moves `base` to `ackn + 1` and transmits nothing;
a frame without the ACK bit is ignored; a timeout retransmits
`range(base, next_seq)` in order without changing the state. -/
def senderStep (st : SenderState) : SenderEvent → List Nat × SenderState
  | SenderEvent.ack ackn flags =>
    if flags &&& FLAG_ACK ≠ 0 then ([], ⟨ackn + 1, st.next⟩) else ([], st)
  | SenderEvent.timeout => (List.range' st.base (st.next - st.base), st)

/-- The sender's Go-Back-N data loop (application.py lines 237-254), driven
by an explicit finite list of socket events: `while base <= total`: fill the
window, then consume one event. Returns the transmitted sequence numbers in
send order (retransmissions included), the final state, and whether the loop
returned (guard `base > total` reached). If the events run out first, the
Python loop would block in `recvfrom` forever; the fold then stops with
`false`. -/
def senderRun (W total : Nat) : SenderState → List SenderEvent → List Nat × SenderState × Bool
  | st, [] =>
    if total < st.base then ([], st, true)
    else
      let f := fillWindow W total st.base st.next
      (f.1, ⟨st.base, f.2⟩, false)
  | st, ev :: rest =>
    if total < st.base then ([], st, true)
    else
      let f := fillWindow W total st.base st.next
      let s := senderStep ⟨st.base, f.2⟩ ev
      let r := senderRun W total s.2 rest
      (f.1 ++ s.1 ++ r.1, r.2)

/-- Validity of a simulated event schedule relative to the state it is
consumed in: every ACK-flagged frame acknowledges only a sequence number that
has been transmitted by then (`ackn + 1 ≤ next_seq` at processing time).
This excludes acknowledgments spoofed for never-transmitted data. This is a
verification-side predicate, not part of the source. -/
def honestAcks (W total : Nat) : SenderState → List SenderEvent → Bool
  | _, [] => true
  | st, ev :: rest =>
    if total < st.base then true
    else
      let f := fillWindow W total st.base st.next
      match ev with
      | SenderEvent.ack ackn flags =>
        ((flags &&& FLAG_ACK == 0) || decide (ackn + 1 ≤ f.2)) &&
          honestAcks W total
            (senderStep ⟨st.base, f.2⟩ (SenderEvent.ack ackn flags)).2 rest
      | SenderEvent.timeout => honestAcks W total ⟨st.base, f.2⟩ rest

theorem fillWindowGo_next_le (total stop : Nat) :
    ∀ fuel next, next ≤ (fillWindowGo total stop fuel next).2 := by
  intro fuel
  induction fuel with
  | zero => intro next; simp [fillWindowGo]
  | succ n ih =>
    intro next
    simp only [fillWindowGo]
    split
    · have := ih (next + 1)
      simpa using by omega
    · simp

theorem fillWindowGo_sends (total stop : Nat) :
    ∀ fuel next, (fillWindowGo total stop fuel next).1 =
      List.range' next ((fillWindowGo total stop fuel next).2 - next) := by
  intro fuel
  induction fuel with
  | zero => intro next; simp [fillWindowGo]
  | succ n ih =>
    intro next
    simp only [fillWindowGo]
    split
    · have hle := fillWindowGo_next_le total stop n (next + 1)
      have heq : (fillWindowGo total stop n (next + 1)).2 - next =
          ((fillWindowGo total stop n (next + 1)).2 - (next + 1)) + 1 := by omega
      simp only [heq, List.range'_succ]
      simpa using ih (next + 1)
    · simp

theorem fillWindow_next_le (W total base next : Nat) :
    next ≤ (fillWindow W total base next).2 :=
  fillWindowGo_next_le total (base + W) (base + W - next) next

theorem fillWindow_sends (W total base next : Nat) :
    (fillWindow W total base next).1 =
      List.range' next ((fillWindow W total base next).2 - next) :=
  fillWindowGo_sends total (base + W) (base + W - next) next

end DRTP

namespace DRTP

/-- Order discipline of a send trace: in every prefix of the trace, a chunk
can only appear if its predecessor chunk already appears — i.e. chunk k + 2 is
never transmitted before chunk k + 1 has been transmitted at least once. -/
def SendTraceOK (sends : List Nat) : Prop :=
  ∀ p, p <+: sends → ∀ k, k + 2 ∈ p → k + 1 ∈ p

/-- Invariant of the sender loop: positive state, every chunk below `next`
already transmitted, every transmitted chunk positive and below `next`, and
the trace respects the predecessor-first order discipline. -/
def SendInv (sends : List Nat) (st : SenderState) : Prop :=
  1 ≤ st.base ∧ 1 ≤ st.next ∧
  (∀ j, 1 ≤ j → j < st.next → j ∈ sends) ∧
  (∀ j, j ∈ sends → 1 ≤ j ∧ j < st.next) ∧
  SendTraceOK sends

theorem prefix_append_cases {α : Type} (s t p : List α) (h : p <+: s ++ t) :
    p <+: s ∨ ∃ q, p = s ++ q ∧ q <+: t := by
  by_cases hl : p.length ≤ s.length
  · exact Or.inl (List.prefix_of_prefix_length_le h (List.prefix_append s t) hl)
  · right
    have hs : s <+: p :=
      List.prefix_of_prefix_length_le (List.prefix_append s t) h (by omega)
    obtain ⟨q, rfl⟩ := hs
    exact ⟨q, rfl, (List.prefix_append_right_inj s).mp h⟩

theorem prefix_range'_mem_closed :
    ∀ (n s : Nat) (q : List Nat), q <+: List.range' s n →
      ∀ x ∈ q, ∀ y, s ≤ y → y ≤ x → y ∈ q := by
  intro n
  induction n with
  | zero =>
    intro s q hq x hx
    rw [show List.range' s 0 = [] from rfl, List.prefix_nil] at hq
    subst hq
    simp at hx
  | succ n ih =>
    intro s q hq x hx y hsy hyx
    rw [List.range'_succ] at hq
    cases q with
    | nil => simp at hx
    | cons a q2 =>
      obtain ⟨rfl, hq2⟩ := List.cons_prefix_cons.mp hq
      rcases List.mem_cons.mp hx with rfl | hx2
      · have : y = x := by omega
        subst this
        exact List.mem_cons_self _ _
      · rcases Nat.eq_or_lt_of_le hsy with rfl | hlt
        · exact List.mem_cons_self _ _
        · exact List.mem_cons_of_mem _ (ih (a + 1) q2 hq2 x hx2 y hlt hyx)

theorem sendTraceOK_append_subset (s t : List Nat)
    (hS : SendTraceOK s) (hsub : ∀ x ∈ t, x ∈ s) : SendTraceOK (s ++ t) := by
  intro p hp k hk2
  rcases prefix_append_cases s t p hp with hps | ⟨q, rfl, hq⟩
  · exact hS p hps k hk2
  · have hk2s : k + 2 ∈ s := by
      rcases List.mem_append.mp hk2 with h | h
      · exact h
      · exact hsub _ (List.IsPrefix.mem h hq)
    exact List.mem_append.mpr (Or.inl (hS s (List.prefix_refl s) k hk2s))

theorem sendTraceOK_append_range (s : List Nat) (nxt c : Nat)
    (hS : SendTraceOK s) (hA : ∀ j, 1 ≤ j → j < nxt → j ∈ s) (hpos : 1 ≤ nxt) :
    SendTraceOK (s ++ List.range' nxt c) := by
  intro p hp k hk2
  rcases prefix_append_cases _ _ p hp with hps | ⟨q, rfl, hq⟩
  · exact hS p hps k hk2
  · rcases List.mem_append.mp hk2 with h | h
    · exact List.mem_append.mpr (Or.inl (hS s (List.prefix_refl s) k h))
    · have hmem := List.IsPrefix.mem h hq
      obtain ⟨hb1, hb2⟩ := List.mem_range'_1.mp hmem
      by_cases hk1 : nxt ≤ k + 1
      · exact List.mem_append.mpr (Or.inr
          (prefix_range'_mem_closed c nxt q hq (k + 2) h (k + 1) hk1 (by omega)))
      · exact List.mem_append.mpr (Or.inl (hA (k + 1) (by omega) (by omega)))

theorem sendInv_fill (W total : Nat) (sends : List Nat) (st : SenderState)
    (h : SendInv sends st) :
    SendInv (sends ++ (fillWindow W total st.base st.next).1)
      ⟨st.base, (fillWindow W total st.base st.next).2⟩ := by
  obtain ⟨hb, hn, hA, hB, hC⟩ := h
  have hle : st.next ≤ (fillWindow W total st.base st.next).2 :=
    fillWindow_next_le W total st.base st.next
  have hsends := fillWindow_sends W total st.base st.next
  refine ⟨hb, by dsimp only; omega, ?_, ?_, ?_⟩
  · intro j h1 h2
    dsimp only at h2
    by_cases hj : j < st.next
    · exact List.mem_append.mpr (Or.inl (hA j h1 hj))
    · refine List.mem_append.mpr (Or.inr ?_)
      rw [hsends]
      exact List.mem_range'_1.mpr ⟨by omega, by omega⟩
  · intro j hj
    dsimp only
    rcases List.mem_append.mp hj with h | h
    · obtain ⟨h1, h2⟩ := hB j h
      exact ⟨h1, by omega⟩
    · rw [hsends] at h
      obtain ⟨h1, h2⟩ := List.mem_range'_1.mp h
      exact ⟨by omega, by omega⟩
  · rw [hsends]
    exact sendTraceOK_append_range sends st.next _ hC hA hn

theorem sendInv_step (sends : List Nat) (st : SenderState) (ev : SenderEvent)
    (h : SendInv sends st) :
    SendInv (sends ++ (senderStep st ev).1) (senderStep st ev).2 := by
  obtain ⟨hb, hn, hA, hB, hC⟩ := h
  cases ev with
  | ack ackn flags =>
    simp only [senderStep]
    split
    · rw [List.append_nil]
      exact ⟨Nat.le_add_left 1 ackn, hn, hA, hB, hC⟩
    · rw [List.append_nil]
      exact ⟨hb, hn, hA, hB, hC⟩
  | timeout =>
    simp only [senderStep]
    have hsub : ∀ x ∈ List.range' st.base (st.next - st.base), x ∈ sends := by
      intro x hx
      obtain ⟨h1, h2⟩ := List.mem_range'_1.mp hx
      exact hA x (by omega) (by omega)
    refine ⟨hb, hn, ?_, ?_, sendTraceOK_append_subset sends _ hC hsub⟩
    · intro j h1 h2
      exact List.mem_append.mpr (Or.inl (hA j h1 h2))
    · intro j hj
      rcases List.mem_append.mp hj with h | h
      · exact hB j h
      · obtain ⟨h1, h2⟩ := List.mem_range'_1.mp h
        exact ⟨by omega, by omega⟩

end DRTP

namespace DRTP

theorem senderRun_inv (W total : Nat) :
    ∀ (evs : List SenderEvent) (st : SenderState) (sends : List Nat),
      SendInv sends st →
      SendInv (sends ++ (senderRun W total st evs).1)
        (senderRun W total st evs).2.1 := by
  intro evs
  induction evs with
  | nil =>
    intro st sends h
    by_cases hc : total < st.base
    · simp only [senderRun, if_pos hc]
      simpa using h
    · simp only [senderRun, if_neg hc]
      exact sendInv_fill W total sends st h
  | cons ev rest ih =>
    intro st sends h
    by_cases hc : total < st.base
    · simp only [senderRun, if_pos hc]
      simpa using h
    · simp only [senderRun, if_neg hc]
      have h1 := sendInv_fill W total sends st h
      have h2 := sendInv_step _ _ ev h1
      have h3 := ih _ _ h2
      simpa [List.append_assoc] using h3

theorem senderRun_done (W total : Nat) :
    ∀ (evs : List SenderEvent) (st : SenderState),
      (senderRun W total st evs).2.2 = true →
      total < (senderRun W total st evs).2.1.base := by
  intro evs
  induction evs with
  | nil =>
    intro st h
    by_cases hc : total < st.base
    · simpa [senderRun, hc] using hc
    · simp [senderRun, hc] at h
  | cons ev rest ih =>
    intro st h
    by_cases hc : total < st.base
    · simpa [senderRun, hc] using hc
    · simp only [senderRun, if_neg hc] at h ⊢
      exact ih _ h

theorem honest_base_le_next (W total : Nat) :
    ∀ (evs : List SenderEvent) (st : SenderState),
      st.base ≤ st.next → honestAcks W total st evs = true →
      (senderRun W total st evs).2.1.base ≤ (senderRun W total st evs).2.1.next := by
  intro evs
  induction evs with
  | nil =>
    intro st hle hh
    by_cases hc : total < st.base
    · simpa [senderRun, hc] using hle
    · have hf := fillWindow_next_le W total st.base st.next
      simp only [senderRun, if_neg hc]
      omega
  | cons ev rest ih =>
    intro st hle hh
    by_cases hc : total < st.base
    · simpa [senderRun, hc] using hle
    · have hf := fillWindow_next_le W total st.base st.next
      simp only [senderRun, if_neg hc]
      simp only [honestAcks, if_neg hc] at hh
      cases ev with
      | ack ackn flags =>
        rw [Bool.and_eq_true] at hh
        obtain ⟨hh1, hh2⟩ := hh
        by_cases hfl : flags &&& FLAG_ACK = 0
        · have hstep : senderStep ⟨st.base, (fillWindow W total st.base st.next).2⟩
              (SenderEvent.ack ackn flags) =
              ([], ⟨st.base, (fillWindow W total st.base st.next).2⟩) := by
            simp [senderStep, hfl]
          rw [hstep] at hh2 ⊢
          exact ih _ (by dsimp only; omega) hh2
        · have hstep : senderStep ⟨st.base, (fillWindow W total st.base st.next).2⟩
              (SenderEvent.ack ackn flags) =
              ([], ⟨ackn + 1, (fillWindow W total st.base st.next).2⟩) := by
            simp [senderStep, hfl]
          have hbound : ackn + 1 ≤ (fillWindow W total st.base st.next).2 := by
            simp only [Bool.or_eq_true, beq_iff_eq, decide_eq_true_eq] at hh1
            rcases hh1 with h1 | h1
            · exact absurd h1 hfl
            · exact h1
          rw [hstep] at hh2 ⊢
          exact ih _ (by dsimp only; omega) hh2
      | timeout =>
        have hstep : senderStep ⟨st.base, (fillWindow W total st.base st.next).2⟩
            SenderEvent.timeout =
            (List.range' st.base ((fillWindow W total st.base st.next).2 - st.base),
             ⟨st.base, (fillWindow W total st.base st.next).2⟩) := by
          simp [senderStep]
        rw [hstep]
        exact ih _ (by dsimp only; omega) hh

end DRTP

namespace DRTP

/-- C2 counterexample: with window 1 and two chunks, a spoofed cumulative ACK
for sequence 2 — never transmitted, since only chunk 1 was sent — makes the
engine return (`base = 3 > total = 2`) although chunk 2 was transmitted zero
times, refuting "terminates ... and in doing so transmits each chunk at least
once" for arbitrary ACK sequences. -/
theorem C2_counterexample :
    (senderRun 1 2 ⟨1, 1⟩ [SenderEvent.ack 2 8]).2.2 = true ∧
    2 ∉ (senderRun 1 2 ⟨1, 1⟩ [SenderEvent.ack 2 8]).1 := by decide

/-- C2 amended: over any finite schedule of simulated ACK/timeout events, the
engine run with `total = 0` returns immediately with no loop iteration; a run
returns only with `base > total`; chunk k + 2 is never transmitted before
chunk k + 1 has been transmitted at least once (in every prefix of the send
trace); and when every processed ACK acknowledges only already-transmitted
chunks (`honestAcks`), a returning run has transmitted every chunk at least
once. (As stated the claim fails: a spoofed ACK beyond the transmitted range
ends the run with chunks never sent, and a schedule of timeouts alone never
returns.) -/
theorem C2_sender_engine (W total : Nat) (evs : List SenderEvent)
    (hW : 1 ≤ W) :
    (senderRun W 0 ⟨1, 1⟩ evs = ([], ⟨1, 1⟩, true))
  ∧ ((senderRun W total ⟨1, 1⟩ evs).2.2 = true →
      total < (senderRun W total ⟨1, 1⟩ evs).2.1.base)
  ∧ (∀ p, p <+: (senderRun W total ⟨1, 1⟩ evs).1 → ∀ k, k + 2 ∈ p → k + 1 ∈ p)
  ∧ (honestAcks W total ⟨1, 1⟩ evs = true →
      (senderRun W total ⟨1, 1⟩ evs).2.2 = true →
      ∀ k, 1 ≤ k → k ≤ total → k ∈ (senderRun W total ⟨1, 1⟩ evs).1) := by
  have hinv0 : SendInv [] ⟨1, 1⟩ := by
    refine ⟨le_refl 1, le_refl 1, ?_, ?_, ?_⟩
    · intro j h1 h2
      dsimp only at h2
      omega
    · intro j hj
      simp at hj
    · intro p hp k hk
      rw [List.prefix_nil] at hp
      subst hp
      simp at hk
  have hinv := senderRun_inv W total evs ⟨1, 1⟩ [] hinv0
  rw [List.nil_append] at hinv
  obtain ⟨hb, hn, hA, hB, hC⟩ := hinv
  refine ⟨?_, senderRun_done W total evs ⟨1, 1⟩, hC, ?_⟩
  · cases evs <;> simp [senderRun]
  · intro hh hdone k hk1 hk2
    have h1 := senderRun_done W total evs ⟨1, 1⟩ hdone
    have h2 := honest_base_le_next W total evs ⟨1, 1⟩ (le_refl 1) hh
    exact hA k hk1 (by omega)

/-- Witness for C2 at W = 1, total = 1, with the honest schedule consisting
of the single cumulative ACK for chunk 1. -/
theorem C2_sender_engine_witness :
    (senderRun 1 0 ⟨1, 1⟩ [SenderEvent.ack 1 8] = ([], ⟨1, 1⟩, true))
  ∧ ((senderRun 1 1 ⟨1, 1⟩ [SenderEvent.ack 1 8]).2.2 = true →
      1 < (senderRun 1 1 ⟨1, 1⟩ [SenderEvent.ack 1 8]).2.1.base)
  ∧ (∀ p, p <+: (senderRun 1 1 ⟨1, 1⟩ [SenderEvent.ack 1 8]).1 →
      ∀ k, k + 2 ∈ p → k + 1 ∈ p)
  ∧ (honestAcks 1 1 ⟨1, 1⟩ [SenderEvent.ack 1 8] = true →
      (senderRun 1 1 ⟨1, 1⟩ [SenderEvent.ack 1 8]).2.2 = true →
      ∀ k, 1 ≤ k → k ≤ 1 → k ∈ (senderRun 1 1 ⟨1, 1⟩ [SenderEvent.ack 1 8]).1) :=
  C2_sender_engine 1 1 [SenderEvent.ack 1 8] (by decide)

/-- C3 counterexample: awaiting in state base = 3, next = 5, the sender
receives a stale ACK with value 1 (a sequence already below `base`); the
claim says the state is unchanged, but the code sets `base = 1 + 1 = 2`,
moving the window backwards. -/
theorem C3_counterexample :
    (senderStep ⟨3, 5⟩ (SenderEvent.ack 1 8)).2 = ⟨2, 5⟩ ∧
    (senderStep ⟨3, 5⟩ (SenderEvent.ack 1 8)).2 ≠ ⟨3, 5⟩ ∧
    (1 : Nat) < 3 := by decide

/-- C3 amended: a received frame with the ACK bit set and acknowledgment
value A unconditionally sets `base = A + 1` (cumulative ACK), transmits
nothing and never changes `next`; a frame without the ACK bit leaves the
state unchanged. Hence a duplicate of the most recent ACK (A = base - 1) is
idempotent, but an older stale ACK (A + 1 < base) is not ignored: it moves
`base` backwards to A + 1. -/
theorem C3_ack_handling (st : SenderState) (a fl : Nat) :
    (fl &&& FLAG_ACK ≠ 0 →
        senderStep st (SenderEvent.ack a fl) = ([], ⟨a + 1, st.next⟩))
  ∧ (fl &&& FLAG_ACK = 0 → senderStep st (SenderEvent.ack a fl) = ([], st))
  ∧ (a + 1 = st.base → (senderStep st (SenderEvent.ack a fl)).2 = st) := by
  refine ⟨?_, ?_, ?_⟩
  · intro h
    simp [senderStep, h]
  · intro h
    simp [senderStep, h]
  · intro h
    by_cases h2 : fl &&& FLAG_ACK = 0
    · simp [senderStep, h2]
    · simp only [senderStep, if_pos h2]
      rw [h]

/-- Witness for C3: a duplicate of the most recent ACK (value 1 in state
base = 2) leaves the state unchanged. -/
theorem C3_ack_handling_witness :
    senderStep ⟨2, 2⟩ (SenderEvent.ack 1 8) = ([], ⟨1 + 1, 2⟩) :=
  (C3_ack_handling ⟨2, 2⟩ 1 8).1 (by decide)

/-- C6: on a timeout the sender retransmits exactly the frames `base` to
`next - 1` inclusive, in increasing sequence order, without changing `base`
or `next`, and then re-enters the wait with the remaining events from the
same window state. -/
theorem C6_timeout_retransmission (st : SenderState) :
    (∀ s, s ∈ (senderStep st SenderEvent.timeout).1 ↔ st.base ≤ s ∧ s < st.next)
  ∧ (senderStep st SenderEvent.timeout).1.Pairwise (· < ·)
  ∧ (senderStep st SenderEvent.timeout).2 = st
  ∧ (∀ W total rest, st.base ≤ total →
      senderRun W total st (SenderEvent.timeout :: rest) =
        ((fillWindow W total st.base st.next).1 ++
           List.range' st.base ((fillWindow W total st.base st.next).2 - st.base) ++
           (senderRun W total ⟨st.base, (fillWindow W total st.base st.next).2⟩ rest).1,
         (senderRun W total ⟨st.base, (fillWindow W total st.base st.next).2⟩ rest).2)) := by
  refine ⟨?_, ?_, rfl, ?_⟩
  · intro s
    simp only [senderStep]
    rw [List.mem_range'_1]
    omega
  · exact List.pairwise_lt_range' st.base (st.next - st.base)
  · intro W total rest h
    simp only [senderRun, if_neg (by omega : ¬ total < st.base), senderStep]

/-- Witness for C6 in state base = 1, next = 2 with W = 1, total = 3: the
window is full, so the fill step sends nothing and the timeout retransmits
exactly packet 1, leaving the state unchanged. -/
theorem C6_timeout_retransmission_witness :
    senderRun 1 3 ⟨1, 2⟩ [SenderEvent.timeout] = ([1], ⟨1, 2⟩, false) := by
  have h := (C6_timeout_retransmission ⟨1, 2⟩).2.2.2 1 3 [] (by decide)
  exact h.trans (by decide)

end DRTP

namespace DRTP

/-- Outcome of the client handshake (`three_way_handshake_client`,
application.py lines 70-94): `handshakeTimeout` models the
`socket.timeout` / `sys.exit(1)` path (no reply within TIMEOUT, nothing
sent afterwards), `protocolError` the `sys.exit(1)` on a reply without both
SYN and ACK bits, `structError` a `struct.error` crash while building the
final ACK, and `established` carries the ACK packet sent and the advertised
window returned. -/
inductive ClientHandshake where
  | handshakeTimeout
  | protocolError
  | structError
  | established (ackPkt : List Nat) (window : Nat)
deriving DecidableEq

/-- Client side of the handshake (application.py lines 70-94), after the SYN
has been sent: the argument is the decoded header `(seq, ack, flags, window)`
of the reply, or `none` if the receive timed out. On success the client sends
`pack_header(0, seq + 1, FLAG_ACK, 0)` and returns the advertised window. -/
def three_way_handshake_client (reply : Option (Nat × Nat × Nat × Nat)) :
    ClientHandshake :=
  match reply with
  | none => ClientHandshake.handshakeTimeout
  | some (seq, _ack, flags, window) =>
    if flags &&& FLAG_SYN ≠ 0 ∧ flags &&& FLAG_ACK ≠ 0 then
      match pack_header 0 ((seq : Int) + 1) ((FLAG_ACK : Nat) : Int) 0 with
      | none => ClientHandshake.structError
      | some pkt => ClientHandshake.established pkt window
    else ClientHandshake.protocolError

/-- The negotiated window computed by the client
(application.py lines 220-221): `min(args.window, receiver_window)` after a
successful handshake, nothing otherwise. -/
def client_negotiated_window (cfgW : Nat)
    (reply : Option (Nat × Nat × Nat × Nat)) : Option Nat :=
  match three_way_handshake_client reply with
  | ClientHandshake.established _pkt w => some (min cfgW w)
  | _ => none

/-- C7 counterexample: a well-formed SYN-ACK whose sequence number is 65535
makes the client crash with `struct.error` while encoding
`ack = peer_seq + 1 = 65536`, instead of sending the ACK and establishing as
the claim states for every non-timeout, SYN-ACK-flagged reply. -/
theorem C7_counterexample :
    three_way_handshake_client (some (65535, 0, 10, 25)) =
      ClientHandshake.structError := by decide

/-- C7 amended: the client open fails with `HandshakeTimeout` (sending no
data) when no reply arrives within TIMEOUT; it fails with
`HandshakeProtocolError` when the reply lacks the SYN bit or the ACK bit;
otherwise, provided the peer's sequence number is below 65535, it sends
ACK(ack = peer_seq + 1) and the negotiated window is
min(configured window, advertised window). (For peer_seq = 65535 the ACK
encoding raises `struct.error` and the attempt dies, as the counterexample
shows.) -/
theorem C7_client_handshake (cfgW : Nat) :
    (three_way_handshake_client none = ClientHandshake.handshakeTimeout)
  ∧ (∀ s a f w, f &&& FLAG_SYN = 0 ∨ f &&& FLAG_ACK = 0 →
      three_way_handshake_client (some (s, a, f, w)) =
        ClientHandshake.protocolError)
  ∧ (∀ s a f w, f &&& FLAG_SYN ≠ 0 → f &&& FLAG_ACK ≠ 0 → s < 65535 →
      three_way_handshake_client (some (s, a, f, w)) =
        ClientHandshake.established
          [0, 0, (s + 1) / 256, (s + 1) % 256, 0, FLAG_ACK, 0, 0] w
      ∧ client_negotiated_window cfgW (some (s, a, f, w)) = some (min cfgW w)) := by
  refine ⟨rfl, ?_, ?_⟩
  · intro s a f w h
    have hcond : ¬ (f &&& FLAG_SYN ≠ 0 ∧ f &&& FLAG_ACK ≠ 0) := by
      rcases h with h | h <;> simp [h]
    simp [three_way_handshake_client, hcond]
  · intro s a f w h1 h2 hs
    have hpk : pack_header 0 ((s : Int) + 1) ((FLAG_ACK : Nat) : Int) 0 =
        some [0, 0, (s + 1) / 256, (s + 1) % 256, 0, FLAG_ACK, 0, 0] := by
      have h0 := pack_header_natCast 0 (s + 1) FLAG_ACK 0
        (by omega) (by omega) (by decide) (by omega)
      push_cast at h0
      norm_num [FLAG_ACK] at h0 ⊢
      exact h0
    have hmain : three_way_handshake_client (some (s, a, f, w)) =
        ClientHandshake.established
          [0, 0, (s + 1) / 256, (s + 1) % 256, 0, FLAG_ACK, 0, 0] w := by
      simp only [three_way_handshake_client, if_pos (And.intro h1 h2), hpk]
    refine ⟨hmain, ?_⟩
    simp only [client_negotiated_window, hmain]

/-- Witness for C7: a SYN-ACK with seq 4, flags SYN|ACK = 10, advertised
window 25, against a configured window of 3. -/
theorem C7_client_handshake_witness :
    three_way_handshake_client (some (4, 0, 10, 25)) =
      ClientHandshake.established
        [0, 0, (4 + 1) / 256, (4 + 1) % 256, 0, FLAG_ACK, 0, 0] 25
  ∧ client_negotiated_window 3 (some (4, 0, 10, 25)) = some (min 3 25) :=
  ((C7_client_handshake 3).2.2 4 0 10 25 (by decide) (by decide) (by decide))

end DRTP
